import Mathlib

/-!
Verification development for the augmented-Lagrangian / block-coordinate-descent
optimizer of `functional_bcd.py` (repository `alternating-vrp`).

The embedding follows the source closely:

* Real numbers of the program are modelled by `ℚ` (the program uses exact
  comparisons such as `eps_pfeas == 0`, and all constants are decimal literals,
  so the rational model is faithful for the control flow studied here).
* Vectors are `List ℚ`, matrices are row lists `List (List ℚ)`.
* The 0-1 iterates `x_idx` are `List Bool` (the block oracle
  `route.solve_primal_by_mip` returns a 0-1 assignment; "select nothing" is the
  all-`false` vector).  With 0-1 iterates, `np.linalg.norm(x_old - x_new)` is
  `Real.sqrt` of the number of changed coordinates, which lets the loop use the
  decidable test "number of changed coordinates = 0" in place of the source's
  `sum of norms < 1e-4`; the equivalence is proved in `sqrtSum_lt_tol_iff`.
* The block oracle is an explicit function parameter `oracle : Vec → List Bool`.
* `os.environ` is modelled by an explicit `Environ` record.
-/

abbrev Vec := List ℚ
abbrev Mat := List (List ℚ)

/-- Dot product of two rational vectors (truncating at the shorter length,
as the shapes agree for well-formed data). -/
def dot (u v : Vec) : ℚ := (List.zipWith (· * ·) u v).sum

/-- Matrix-vector product `A @ x` (source: `block['A'] @ x`). -/
def matVec (A : Mat) (x : Vec) : Vec := A.map (fun row => dot row x)

/-- Componentwise vector sum. -/
def vecAdd (u v : Vec) : Vec := List.zipWith (· + ·) u v

/-- Componentwise vector difference. -/
def vecSub (u v : Vec) : Vec := List.zipWith (· - ·) u v

/-- Scalar multiple of a vector. -/
def scale (a : ℚ) (v : Vec) : Vec := v.map (a * ·)

/-- Componentwise division of a vector by a scalar (source: `lbd / rho`). -/
def vdiv (v : Vec) (a : ℚ) : Vec := v.map (· / a)

/-- Componentwise `max(x, 0)` (source: `_nonnegative`, the vectorized
`max(x, 0)`). -/
def nonneg (v : Vec) : Vec := v.map (fun a => max a 0)

/-- Sum of squares of the entries; `np.linalg.norm v` is `Real.sqrt (sumSq v)`. -/
def sumSq (v : Vec) : ℚ := (v.map (fun a => a * a)).sum

/-- All-zero vector of length `n`. -/
def zerosV (n : ℕ) : Vec := List.replicate n 0

/-- Sum of a list of vectors with an all-zero base vector (source:
`sum(_vAx.values())`, broadcasting the scalar start value `0`). -/
def sumVecs (m : ℕ) (l : List Vec) : Vec := l.foldl vecAdd (zerosV m)

/-- Transposed matrix-vector product `A.T @ w`. -/
def matTvec (A : Mat) (w : Vec) : Vec :=
  (List.zipWith (fun row wi => scale wi row) A w).foldl vecAdd
    (zerosV ((A.headD []).length))

/-- A 0-1 assignment as a rational vector. -/
def xq (x : List Bool) : Vec := x.map (fun bit => if bit then (1 : ℚ) else 0)

/-- Linear cost of a 0-1 assignment (source: `(_c.T @ _x).trace()`). -/
def dotB (g : Vec) (x : List Bool) : ℚ := dot g (xq x)

/-- Number of coordinates on which two 0-1 assignments differ.  For 0-1
vectors this is the squared Euclidean norm of their difference, so the
source's per-block fixed-point residual `np.linalg.norm(xk[idx] - _x)` is
`Real.sqrt (diffCount old new)`. -/
def diffCount (u v : List Bool) : ℕ :=
  (List.zipWith (fun a b => if a = b then (0 : ℕ) else 1) u v).sum

/-- External configuration (source: `os.environ` keys `primal` and `dual`). -/
structure Environ where
  primal : Option String
  dual : Option String

/-- The tuning/state store (source: class `BCDParams`).  `norms` and
`multipliers` are triples of lists in the source; their element type is
irrelevant to the algorithm, so they are modelled as rational lists. -/
structure BCDParams where
  kappa : ℚ
  alpha : ℚ
  beta : ℚ
  gamma : ℚ
  changed : ℕ
  num_stuck : ℕ
  eps_num_stuck : ℕ
  iter : ℕ
  lb : ℚ
  lb_arr : List ℚ
  ub_arr : List ℚ
  gap : ℚ
  dual_method : String
  primal_heuristic_method : Option String
  feasible_provider : String
  max_number : ℕ
  norms : List ℚ × List ℚ × List ℚ
  multipliers : List ℚ × List ℚ × List ℚ
  itermax : ℕ
  linmax : ℕ

/-- Source: `BCDParams.parse_environ` — re-reads the mode selectors from the
environment (`primal` defaults to `None`, `dual` defaults to `"pdhg_alm"`). -/
def parse_environ (env : Environ) (p : BCDParams) : BCDParams :=
  { p with primal_heuristic_method := env.primal
           dual_method := env.dual.getD "pdhg_alm" }

/-- Source: `BCDParams.__init__` — the initial configuration, followed by
`parse_environ`. -/
def BCDParams.init (env : Environ) : BCDParams :=
  parse_environ env
    { kappa := 1/5
      alpha := 1
      beta := 1
      gamma := 1/10
      changed := 0
      num_stuck := 0
      eps_num_stuck := 3
      iter := 0
      lb := 1/1000000
      lb_arr := []
      ub_arr := []
      gap := 1
      dual_method := "pdhg"
      primal_heuristic_method := some "jsp"
      feasible_provider := "jsp"
      max_number := 1
      norms := ([], [], [])
      multipliers := ([], [], [])
      itermax := 10000
      linmax := 10 }

/-- Source: `BCDParams.update_bound(lb)`. -/
def update_bound (p : BCDParams) (lb : ℚ) : BCDParams :=
  let p1 := if p.lb ≤ lb then
              { p with lb := lb, changed := 1, num_stuck := 0 }
            else
              { p with changed := 0, num_stuck := p.num_stuck + 1 }
  let p2 := if p1.eps_num_stuck ≤ p1.num_stuck then
              { p1 with kappa := p1.kappa * (1/2), num_stuck := 0 }
            else p1
  { p2 with lb_arr := p2.lb_arr ++ [lb] }

/-- Source: `BCDParams.update_incumbent(ub)`. -/
def update_incumbent (p : BCDParams) (ub : ℚ) : BCDParams :=
  { p with ub_arr := p.ub_arr ++ [ub] }

/-- Python's `min` over a list (the source applies it only to non-empty
histories; the `[]` case is junk, matching the fact that Python raises). -/
def pymin : List ℚ → ℚ
  | [] => 0
  | [a] => a
  | a :: b :: t => min a (pymin (b :: t))

/-- Python's `max` over a list (see `pymin`). -/
def pymax : List ℚ → ℚ
  | [] => 0
  | [a] => a
  | a :: b :: t => max a (pymax (b :: t))

/-- Source: `BCDParams.update_gap()`. -/
def update_gap (p : BCDParams) : BCDParams :=
  { p with gap := (pymin p.ub_arr - pymax p.lb_arr) / (|pymax p.lb_arr| + 1/1000) }

/-- Source: `BCDParams.reset()` — restores part of the state and re-reads the
environment. -/
def reset (env : Environ) (p : BCDParams) : BCDParams :=
  parse_environ env
    { p with num_stuck := 0
             eps_num_stuck := 3
             iter := 0
             lb := 1/1000000
             lb_arr := []
             ub_arr := []
             gap := 1
             dual_method := "pdhg"
             primal_heuristic_method := some "jsp"
             feasible_provider := "jsp"
             max_number := 1
             norms := ([], [], [])
             multipliers := ([], [], []) }

/-- Block-structured problem data consumed by `optimize` (source: the entries
of `block_data` that the outer loop reads: the linking matrices `A`, the
linking right-hand side `b` and the per-block cost vectors `c`; the remaining
entries are only passed through to the oracle). -/
structure BlockData where
  A : List Mat
  b : Vec
  c : List Vec

/-- Number of linking rows, read off the first block (source: `m, n = A1.shape`). -/
def nRows (d : BlockData) : ℕ := (d.A.headD []).length

/-- Number of columns per block, read off the first block (source:
`m, n = A1.shape`; the code sizes every block's iterate by `n`). -/
def nCols (d : BlockData) : ℕ := ((d.A.headD []).headD []).length

/-- Aggregate linking product `sum(_vAx.values())`. -/
def aggAx (d : BlockData) (vAx : List Vec) : Vec := sumVecs (nRows d) vAx

/-- Source constant `Anorm = 20`. -/
def Anorm : ℚ := 20

/-- Source constant `rho = 1e-2` (the seed penalty weight). -/
def rho0 : ℚ := 1/100

/-- Source constant `sigma = 2` (the penalty growth factor). -/
def sigma : ℚ := 2

/-- Mutable state of the outer continuation loop. -/
structure OuterState where
  xk : List (List Bool)
  vAx : List Vec
  vcx : List ℚ
  epsFix : List ℕ
  rho : ℚ
  lbd : Vec

/-- The linearized-proximal gradient of one block (source:
`_c = c[idx].T + rho * Ak.T @ _nonnegative(_Ax - b + lbd / rho) + (0.5 - xk[idx]) / tau`). -/
def blockGrad (d : BlockData) (tau : ℚ) (st : OuterState) (idx : ℕ) : Vec :=
  let Ak := d.A.getD idx []
  let sAx := aggAx d st.vAx
  let xi := st.xk.getD idx []
  vecAdd
    (vecAdd (d.c.getD idx [])
      (scale st.rho (matTvec Ak (nonneg (vecAdd (vecSub sAx d.b) (vdiv st.lbd st.rho))))))
    ((vecSub (List.replicate xi.length (1/2 : ℚ)) (xq xi)).map (· / tau))

/-- The acceptance rule of the Block Best-Response Step (source:
`if _v_sp > 0: _x = np.zeros(_c.shape)`). -/
def acceptStep (g : Vec) (cand : List Bool) : List Bool :=
  if dotB g cand > 0 then List.replicate g.length false else cand

/-- One Block Best-Response Step: gradient, oracle call, acceptance rule, and
the atomic refresh of the iterate and its cached products. -/
def blockUpdate (d : BlockData) (tau : ℚ) (oracle : Vec → List Bool)
    (st : OuterState) (idx : ℕ) : OuterState :=
  let g := blockGrad d tau st idx
  let xnew := acceptStep g (oracle g)
  { st with
      epsFix := st.epsFix.set idx (diffCount (st.xk.getD idx []) xnew)
      xk := st.xk.set idx xnew
      vAx := st.vAx.set idx (matVec (d.A.getD idx []) (xq xnew))
      vcx := st.vcx.set idx (dotB (d.c.getD idx []) xnew) }

/-- One full Gauss-Seidel pass over all blocks in the fixed order
`0, 1, …, nblock-1` (source: `for idx in range(nblock)`). -/
def sweepPass (d : BlockData) (tau : ℚ) (oracle : Vec → List Bool)
    (st : OuterState) : OuterState :=
  (List.range d.A.length).foldl (blockUpdate d tau oracle) st

/-- Result of one inner coordinate sweep: final state, the per-block
fixed-point counts recorded after each completed pass, and whether the sweep
stopped via the early-exit test. -/
structure SweepResult where
  st : OuterState
  passEps : List (List ℕ)
  broke : Bool

/-- The inner coordinate sweep (source: `for it in range(bcdpar.linmax)` with
the early exit `if sum(_eps_fix_point.values()) < 1e-4: break`).  For 0-1
iterates the source's test is equivalent to "no coordinate changed in the
pass", i.e. `epsFix.sum = 0` (lemma `sqrtSum_lt_tol_iff`). -/
def innerLoop (d : BlockData) (tau : ℚ) (oracle : Vec → List Bool) :
    ℕ → OuterState → SweepResult
  | 0, st => ⟨st, [], false⟩
  | fuel + 1, st =>
    let st1 := sweepPass d tau oracle st
    if st1.epsFix.sum = 0 then ⟨st1, [st1.epsFix], true⟩
    else
      let r := innerLoop d tau oracle fuel st1
      ⟨r.st, st1.epsFix :: r.passEps, r.broke⟩

/-- The multiplier update (source: `lbd = _nonnegative((_Ax - b) * rho + lbd)`,
executed after `rho *= sigma`). -/
def lbdUpdate (sAx bb : Vec) (rho : ℚ) (lbd : Vec) : Vec :=
  nonneg (vecAdd (scale rho (vecSub sAx bb)) lbd)

/-- One diagnostic record per outer iteration (the quantities of the printed
log line that the claims refer to). -/
structure OuterRecord where
  rho : ℚ
  tau : ℚ
  pfeasSq : ℚ
  epsFix : List ℕ
  innerPasses : ℕ
  cx : ℚ

/-- Placeholder record used as the `List.getD` default. -/
def dummyRecord : OuterRecord := ⟨0, 0, 0, [], 0, 0⟩

/-- Result of the outer continuation loop: final state, the per-iteration
diagnostic trace, and whether the loop exited through the convergence test
(`True`) or by exhausting `itermax` (`False`). -/
structure OuterResult where
  st : OuterState
  trace : List OuterRecord
  converged : Bool

/-- The primal infeasibility vector `_vpfeas = _nonnegative(_Ax - b)`. -/
def pfeasVec (d : BlockData) (st : OuterState) : Vec :=
  nonneg (vecSub (aggAx d st.vAx) d.b)

/-- The outer convergence test (source: `eps_pfeas == 0 and eps_fp < 1e-4`).
`eps_pfeas = np.linalg.norm(_vpfeas)` vanishes iff `sumSq (pfeasVec d st) = 0`
(lemma `sqrt_ratCast_eq_zero_iff`), and for 0-1 iterates the fixed-point test
is equivalent to `st.epsFix.sum = 0` (lemma `sqrtSum_lt_tol_iff`). -/
def outerCond (d : BlockData) (st : OuterState) : Prop :=
  sumSq (pfeasVec d st) = 0 ∧ st.epsFix.sum = 0

instance (d : BlockData) (st : OuterState) : Decidable (outerCond d st) :=
  inferInstanceAs (Decidable (_ ∧ _))

/-- The diagnostic record of one outer iteration (the quantities of the log
line: `rho`, `tau`, the feasibility residual, the fixed-point counts, the
number of inner passes `it + 1`, and `cx`). -/
def mkRecord (d : BlockData) (tau : ℚ) (st : OuterState) (passes : ℕ) :
    OuterRecord :=
  ⟨st.rho, tau, sumSq (pfeasVec d st), st.epsFix, passes, st.vcx.sum⟩

/-- The outer continuation loop (source: `for k in range(bcdpar.itermax)`). -/
def outerLoop (d : BlockData) (tau : ℚ) (oracle : Vec → List Bool)
    (linmax : ℕ) : ℕ → OuterState → OuterResult
  | 0, st => ⟨st, [], false⟩
  | fuel + 1, st =>
    let r := innerLoop d tau oracle linmax st
    let ent := mkRecord d tau r.st r.passEps.length
    if outerCond d r.st then
      ⟨r.st, [ent], true⟩
    else
      let rho2 := r.st.rho * sigma
      let st2 : OuterState :=
        { r.st with rho := rho2
                    lbd := lbdUpdate (aggAx d r.st.vAx) d.b rho2 r.st.lbd }
      let res := outerLoop d tau oracle linmax fuel st2
      ⟨res.st, ent :: res.trace, res.converged⟩

/-- The initial state of `optimize` (source: `xk = [np.ones((n, 1)) for _ in A]`,
the cached products, `_eps_fix_point = {idx: 0 …}`, `rho = 1e-2`,
`lbd = rho * np.ones((m, 1))`). -/
def initState (d : BlockData) : OuterState :=
  let x0 : List Bool := List.replicate (nCols d) true
  { xk := d.A.map (fun _ => x0)
    vAx := d.A.map (fun Ai => matVec Ai (xq x0))
    vcx := d.c.map (fun ci => dotB ci x0)
    epsFix := d.A.map (fun _ => 0)
    rho := rho0
    lbd := List.replicate (nRows d) rho0 }

/-- The full run of `optimize` with its diagnostic trace (source: `optimize`;
`tau = 1 / (Anorm ** 2 * rho)` is computed once, before the loop). -/
def optimizeRun (p : BCDParams) (d : BlockData) (oracle : Vec → List Bool) :
    OuterResult :=
  outerLoop d (1 / (Anorm ^ 2 * rho0)) oracle p.linmax p.itermax (initState d)

/-- The value `optimize` actually returns (source: `return xk`). -/
def optimize (p : BCDParams) (d : BlockData) (oracle : Vec → List Bool) :
    List (List Bool) :=
  (optimizeRun p d oracle).st.xk

/-- Concrete environment used by the concrete test instances. -/
def envW : Environ := ⟨none, none⟩

/-- Concrete parameter store with small iteration caps, for concrete runs. -/
def pW : BCDParams := { BCDParams.init envW with itermax := 2, linmax := 3 }

/-- A one-block 1×1 instance with a satisfiable linking constraint: the run
converges (the final iterate `[[false]]` is feasible). -/
def d1W : BlockData := ⟨[[[1]]], [1], [[5]]⟩

/-- A one-block 1×1 instance whose linking constraint `x ≤ -1` is violated by
every 0-1 point: the run hits the iteration limit. -/
def d2W : BlockData := ⟨[[[1]]], [-1], [[5]]⟩

/-- An oracle that always proposes selecting the single path. -/
def oW : Vec → List Bool := fun _ => [true]

/-- A one-block 1×1 instance on which `o3W` makes the iterate oscillate, so the
inner sweep never meets its fixed-point tolerance. -/
def d3W : BlockData := ⟨[[[1]]], [0], [[-3]]⟩

/-- An oracle whose proposal depends on the gradient value, producing an
oscillating accepted iterate on `d3W`. -/
def o3W : Vec → List Bool := fun g => if g.headD 0 < -2 then [false] else [true]

/-- Concrete store with the histories of claim C8's concrete instance. -/
def pC8 : BCDParams :=
  { BCDParams.init envW with lb_arr := [1, 2, 3/2], ub_arr := [10, 8] }

/-! ### Bridging lemmas between the decidable loop tests and the source's
floating-point tests -/

lemma sumSq_nonneg (v : Vec) : 0 ≤ sumSq v := by
  apply List.sum_nonneg
  intro x hx
  obtain ⟨a, _, rfl⟩ := List.mem_map.mp hx
  exact mul_self_nonneg a

/-- `np.linalg.norm w == 0` is equivalent to `sumSq w = 0`. -/
lemma sqrt_ratCast_eq_zero_iff (q : ℚ) (hq : 0 ≤ q) :
    Real.sqrt (q : ℝ) = 0 ↔ q = 0 := by
  rw [Real.sqrt_eq_zero (by exact_mod_cast hq), Rat.cast_eq_zero]

lemma sqrtSum_nonneg (l : List ℕ) :
    0 ≤ (l.map (fun j : ℕ => Real.sqrt (j : ℝ))).sum := by
  apply List.sum_nonneg
  intro x hx
  obtain ⟨a, _, rfl⟩ := List.mem_map.mp hx
  exact Real.sqrt_nonneg _

/-- For 0-1 iterates the per-block fixed-point residual is `√(changed count)`,
so the source's test `sum of residuals < 1e-4` is equivalent to "no coordinate
changed anywhere", i.e. the sum of the counts is zero. -/
lemma sqrtSum_lt_tol_iff (l : List ℕ) :
    (l.map (fun j : ℕ => Real.sqrt (j : ℝ))).sum < 1/10000 ↔ l.sum = 0 := by
  induction l with
  | nil => norm_num
  | cons a t ih =>
    rcases Nat.eq_zero_or_pos a with ha | ha
    · subst ha
      simpa using ih
    · have h1 : (1 : ℝ) ≤ Real.sqrt (a : ℝ) := by
        rw [Real.le_sqrt' one_pos, one_pow]
        exact Nat.one_le_cast.mpr ha
      constructor
      · intro h
        exfalso
        have h2 := sqrtSum_nonneg t
        rw [List.map_cons, List.sum_cons] at h
        linarith
      · intro h
        rw [List.sum_cons] at h
        omega

/-! ### The Block Best-Response Step -/

lemma dotB_replicate_false (g : Vec) (k : ℕ) :
    dotB g (List.replicate k false) = 0 := by
  induction g generalizing k with
  | nil => simp [dotB, dot, xq]
  | cons a t ih =>
    cases k with
    | zero => simp [dotB, dot, xq]
    | succ k =>
      have := ih k
      simp [dotB, dot, xq, List.replicate_succ] at this ⊢
      exact this

lemma acceptStep_spec (g : Vec) (cand : List Bool) :
    dotB g (acceptStep g cand) ≤ 0 ∧
      (dotB g cand > 0 → acceptStep g cand = List.replicate g.length false) := by
  unfold acceptStep
  by_cases h : dotB g cand > 0
  · rw [if_pos h]
    exact ⟨le_of_eq (dotB_replicate_false g g.length), fun _ => rfl⟩
  · rw [if_neg h]
    exact ⟨not_lt.mp h, fun hc => absurd hc h⟩

/-- C3: in every Block Best-Response Step, a candidate with positive
linearized cost is replaced by the all-zero assignment, and consequently the
stored iterate (the entry written into `xk` at position `idx`) always has
linearized cost `≤ 0`. -/
theorem claimC3_thm (d : BlockData) (tau : ℚ) (oracle : Vec → List Bool)
    (st : OuterState) (idx : ℕ) :
    (blockUpdate d tau oracle st idx).xk
      = st.xk.set idx
          (acceptStep (blockGrad d tau st idx) (oracle (blockGrad d tau st idx))) ∧
    dotB (blockGrad d tau st idx)
        (acceptStep (blockGrad d tau st idx) (oracle (blockGrad d tau st idx))) ≤ 0 ∧
    (dotB (blockGrad d tau st idx) (oracle (blockGrad d tau st idx)) > 0 →
      acceptStep (blockGrad d tau st idx) (oracle (blockGrad d tau st idx))
        = List.replicate (blockGrad d tau st idx).length false) := by
  refine ⟨rfl, ?_, ?_⟩
  · exact (acceptStep_spec _ _).1
  · exact (acceptStep_spec _ _).2

/-- On the concrete instance `d1W` the first gradient is `[301/100]`, so the
oracle's candidate `[true]` has positive linearized cost. -/
lemma d1W_first_cost_pos :
    dotB (blockGrad d1W (1/4) (initState d1W) 0)
      (oW (blockGrad d1W (1/4) (initState d1W) 0)) > 0 := by
  norm_num [blockGrad, initState, d1W, oW, aggAx, sumVecs, matTvec, matVec,
    vecAdd, vecSub, scale, vdiv, nonneg, zerosV, xq, dotB, dot, nRows, nCols,
    rho0, List.foldl, List.zipWith, List.map]

/-- Companion witness for the hypothesis of `claimC3_thm`: on the concrete
instance `d1W` the oracle's candidate has positive linearized cost and is
rejected to the all-zero assignment. -/
theorem claimC3_witness :
    acceptStep (blockGrad d1W (1/4) (initState d1W) 0)
        (oW (blockGrad d1W (1/4) (initState d1W) 0))
      = List.replicate (blockGrad d1W (1/4) (initState d1W) 0).length false :=
  (claimC3_thm d1W (1/4) oW (initState d1W) 0).2.2 d1W_first_cost_pos

/-! ### The multiplier -/

/-- C4: every component of the multiplier is non-negative after
initialization and after every multiplier update, for any value of the
linking residual. -/
theorem claimC4_thm (d : BlockData) (sAx bb lbd : Vec) (rho : ℚ) :
    (∀ a ∈ (initState d).lbd, 0 ≤ a) ∧ (∀ a ∈ lbdUpdate sAx bb rho lbd, 0 ≤ a) := by
  constructor
  · intro a ha
    simp only [initState] at ha
    have h := List.eq_of_mem_replicate ha
    subst h
    norm_num [rho0]
  · intro a ha
    simp only [lbdUpdate, nonneg] at ha
    obtain ⟨x, _, rfl⟩ := List.mem_map.mp ha
    exact le_max_right x 0

/-- Concrete multiplier update: `lbdUpdate [5] [1] 2 [0] = [8]`. -/
lemma lbdUpdate_concrete : (8 : ℚ) ∈ lbdUpdate [5] [1] 2 [0] := by
  norm_num [lbdUpdate, nonneg, vecAdd, vecSub, scale, List.zipWith, List.map]

/-- Companion witness for `claimC4_thm`: the concrete update
`lbdUpdate [5] [1] 2 [0] = [8]` has the non-negative member `8`. -/
theorem claimC4_witness : (8 : ℚ) ∈ lbdUpdate [5] [1] 2 [0] ∧ (0 : ℚ) ≤ 8 :=
  ⟨lbdUpdate_concrete, (claimC4_thm d1W [5] [1] [0] 2).2 8 lbdUpdate_concrete⟩

/-! ### The bound tracker `update_bound` -/

lemma update_bound_improve (p : BCDParams) (lb : ℚ) (h3 : p.eps_num_stuck = 3)
    (h : p.lb ≤ lb) :
    update_bound p lb
      = { p with lb := lb, changed := 1, num_stuck := 0,
                 lb_arr := p.lb_arr ++ [lb] } := by
  simp only [update_bound]
  rw [if_pos h, if_neg (by simp [h3])]

lemma update_bound_stuck_small (p : BCDParams) (lb : ℚ) (h3 : p.eps_num_stuck = 3)
    (h : lb < p.lb) (hn : p.num_stuck + 1 < 3) :
    update_bound p lb
      = { p with changed := 0, num_stuck := p.num_stuck + 1,
                 lb_arr := p.lb_arr ++ [lb] } := by
  simp only [update_bound]
  rw [if_neg (not_le.mpr h), if_neg (by simp [h3]; omega)]

lemma update_bound_stuck_big (p : BCDParams) (lb : ℚ) (h3 : p.eps_num_stuck = 3)
    (h : lb < p.lb) (hn : 3 ≤ p.num_stuck + 1) :
    update_bound p lb
      = { p with changed := 0, kappa := p.kappa * (1/2), num_stuck := 0,
                 lb_arr := p.lb_arr ++ [lb] } := by
  simp only [update_bound]
  rw [if_neg (not_le.mpr h), if_pos (by simp [h3]; omega)]

lemma update_bound_stuck_fields (p : BCDParams) (lb : ℚ)
    (h3 : p.eps_num_stuck = 3) (h : lb < p.lb) (hn : p.num_stuck + 1 < 3) :
    (update_bound p lb).kappa = p.kappa ∧
    (update_bound p lb).num_stuck = p.num_stuck + 1 ∧
    (update_bound p lb).lb = p.lb ∧
    (update_bound p lb).eps_num_stuck = 3 := by
  rw [update_bound_stuck_small p lb h3 h hn]
  exact ⟨rfl, rfl, rfl, h3⟩

lemma update_bound_stuck_big_fields (p : BCDParams) (lb : ℚ)
    (h3 : p.eps_num_stuck = 3) (h : lb < p.lb) (hn : 3 ≤ p.num_stuck + 1) :
    (update_bound p lb).kappa = p.kappa * (1/2) ∧
    (update_bound p lb).num_stuck = 0 := by
  rw [update_bound_stuck_big p lb h3 h hn]
  exact ⟨rfl, rfl⟩

/-- C7: `update_bound` records an improving (`≥`) bound with `changed = 1` and
a reset stuck counter; a non-improving bound sets `changed = 0` and increments
the counter; when the counter reaches the threshold `3` the damping factor
`kappa` is halved exactly once and the counter is reset; the bound is appended
to the history unconditionally in every case; and three consecutive
non-improving calls halve `kappa` exactly once, leaving the counter at `0`. -/
theorem claimC7_thm (p : BCDParams) (lb : ℚ) (h3 : p.eps_num_stuck = 3) :
    (p.lb ≤ lb →
      update_bound p lb
        = { p with lb := lb, changed := 1, num_stuck := 0,
                   lb_arr := p.lb_arr ++ [lb] }) ∧
    (lb < p.lb → p.num_stuck + 1 < 3 →
      update_bound p lb
        = { p with changed := 0, num_stuck := p.num_stuck + 1,
                   lb_arr := p.lb_arr ++ [lb] }) ∧
    (lb < p.lb → 3 ≤ p.num_stuck + 1 →
      update_bound p lb
        = { p with changed := 0, kappa := p.kappa * (1/2), num_stuck := 0,
                   lb_arr := p.lb_arr ++ [lb] }) ∧
    (p.num_stuck = 0 → lb < p.lb →
      (update_bound (update_bound (update_bound p lb) lb) lb).kappa
          = p.kappa * (1/2) ∧
      (update_bound (update_bound (update_bound p lb) lb) lb).num_stuck = 0) := by
  refine ⟨update_bound_improve p lb h3, update_bound_stuck_small p lb h3,
    update_bound_stuck_big p lb h3, ?_⟩
  intro h0 hlt
  obtain ⟨k1, n1, l1, e1⟩ := update_bound_stuck_fields p lb h3 hlt (by omega)
  obtain ⟨k2, n2, l2, e2⟩ :=
    update_bound_stuck_fields (update_bound p lb) lb e1 (l1 ▸ hlt) (by omega)
  obtain ⟨k3, n3⟩ :=
    update_bound_stuck_big_fields (update_bound (update_bound p lb) lb) lb e2
      (l2 ▸ l1 ▸ hlt) (by omega)
  rw [k3, k2, k1]
  exact ⟨rfl, n3⟩

/-- Companion witness for `claimC7_thm`: three consecutive non-improving calls
on a freshly initialized store halve `kappa` once and leave the counter at 0. -/
theorem claimC7_witness :
    (update_bound (update_bound (update_bound (BCDParams.init envW) 0) 0) 0).kappa
        = (BCDParams.init envW).kappa * (1/2) ∧
    (update_bound (update_bound (update_bound (BCDParams.init envW) 0) 0) 0).num_stuck
        = 0 :=
  (claimC7_thm (BCDParams.init envW) 0 rfl).2.2.2 rfl
    (by norm_num [BCDParams.init, parse_environ])

/-! ### The gap tracker `update_gap` -/

lemma pymin_spec : ∀ l : List ℚ, l ≠ [] → pymin l ∈ l ∧ ∀ y ∈ l, pymin l ≤ y := by
  intro l
  induction l with
  | nil => simp
  | cons a t ih =>
    intro _
    cases t with
    | nil => simp [pymin]
    | cons b t2 =>
      obtain ⟨hmem, hle⟩ := ih (by simp)
      have heq : pymin (a :: b :: t2) = min a (pymin (b :: t2)) := rfl
      constructor
      · rw [heq]
        rcases le_total a (pymin (b :: t2)) with h | h
        · rw [min_eq_left h]; exact List.mem_cons_self a _
        · rw [min_eq_right h]; exact List.mem_cons_of_mem _ hmem
      · intro y hy
        rw [heq]
        rcases List.mem_cons.mp hy with h | h
        · subst h; exact min_le_left _ _
        · exact le_trans (min_le_right _ _) (hle y h)

lemma pymax_spec : ∀ l : List ℚ, l ≠ [] → pymax l ∈ l ∧ ∀ y ∈ l, y ≤ pymax l := by
  intro l
  induction l with
  | nil => simp
  | cons a t ih =>
    intro _
    cases t with
    | nil => simp [pymax]
    | cons b t2 =>
      obtain ⟨hmem, hle⟩ := ih (by simp)
      have heq : pymax (a :: b :: t2) = max a (pymax (b :: t2)) := rfl
      constructor
      · rw [heq]
        rcases le_total a (pymax (b :: t2)) with h | h
        · rw [max_eq_right h]; exact List.mem_cons_of_mem _ hmem
        · rw [max_eq_left h]; exact List.mem_cons_self a _
      · intro y hy
        rw [heq]
        rcases List.mem_cons.mp hy with h | h
        · subst h; exact le_max_left _ _
        · exact le_trans (hle y h) (le_max_right _ _)

/-- C8: after `update_gap`, the gap equals
`(min of the upper-bound history - max of the lower-bound history)` divided by
`(|max of the lower-bound history| + 1/1000)`, where `pymin`/`pymax` really
are the minimum and maximum of the non-empty histories; on the concrete
histories `[1, 2, 3/2]` and `[10, 8]` the gap is `(8 - 2) / (2 + 1/1000)`. -/
theorem claimC8_thm (p : BCDParams) (h1 : p.lb_arr ≠ []) (h2 : p.ub_arr ≠ []) :
    (update_gap p).gap
        = (pymin p.ub_arr - pymax p.lb_arr) / (|pymax p.lb_arr| + 1/1000) ∧
    pymin p.ub_arr ∈ p.ub_arr ∧ (∀ y ∈ p.ub_arr, pymin p.ub_arr ≤ y) ∧
    pymax p.lb_arr ∈ p.lb_arr ∧ (∀ y ∈ p.lb_arr, y ≤ pymax p.lb_arr) ∧
    (p.lb_arr = [1, 2, 3/2] → p.ub_arr = [10, 8] →
      (update_gap p).gap = (8 - 2) / (2 + 1/1000)) := by
  refine ⟨rfl, (pymin_spec _ h2).1, (pymin_spec _ h2).2,
    (pymax_spec _ h1).1, (pymax_spec _ h1).2, ?_⟩
  intro e1 e2
  show (pymin p.ub_arr - pymax p.lb_arr) / (|pymax p.lb_arr| + 1/1000) = _
  rw [e1, e2]
  norm_num [pymin, pymax, min_def, max_def, abs_eq_max_neg]

/-- Companion witness for `claimC8_thm` on the concrete histories. -/
theorem claimC8_witness : (update_gap pC8).gap = ((8 : ℚ) - 2) / (2 + 1/1000) :=
  (claimC8_thm pC8 (by simp [pC8]) (by simp [pC8])).2.2.2.2.2 rfl rfl

/-! ### `reset` -/

/-- C10 counterexample: `reset` does not restore the counter `changed`; a
store with `changed = 1` keeps it through `reset`, while the initial
configuration has `changed = 0`. -/
theorem claimC10_counterexample :
    (reset envW { BCDParams.init envW with changed := 1 }).changed
      ≠ (BCDParams.init envW).changed := by
  decide

/-- C10 (amended): `reset` restores `num_stuck`, `iter`, the bound histories,
`gap`, `lb`, `eps_num_stuck`, `max_number`, `norms`, `multipliers`, and the
mode selectors (re-reading the external configuration), but leaves `changed`
(as well as `kappa`, `alpha`, `beta`, `gamma`, `itermax`, `linmax`) at their
pre-reset values. -/
theorem claimC10_amended_thm (env : Environ) (p : BCDParams) :
    reset env p
      = { BCDParams.init env with
            kappa := p.kappa, alpha := p.alpha, beta := p.beta, gamma := p.gamma,
            changed := p.changed, itermax := p.itermax, linmax := p.linmax } := rfl

/-! ### The inner coordinate sweep -/

lemma innerLoop_spec (d : BlockData) (tau : ℚ) (oracle : Vec → List Bool) :
    ∀ (fuel : ℕ) (st : OuterState),
      (innerLoop d tau oracle fuel st).passEps.length ≤ fuel ∧
      ((innerLoop d tau oracle fuel st).broke = true ↔
        ∃ l ∈ (innerLoop d tau oracle fuel st).passEps, l.sum = 0) ∧
      ((innerLoop d tau oracle fuel st).broke = false →
        (innerLoop d tau oracle fuel st).passEps.length = fuel) := by
  intro fuel
  induction fuel with
  | zero => intro st; simp [innerLoop]
  | succ fuel ih =>
    intro st
    by_cases h : (sweepPass d tau oracle st).epsFix.sum = 0
    · simp [innerLoop, h]
    · obtain ⟨ih1, ih2, ih3⟩ := ih (sweepPass d tau oracle st)
      simp only [innerLoop, if_neg h]
      refine ⟨Nat.succ_le_succ ih1, ?_, ?_⟩
      · constructor
        · intro hb
          obtain ⟨l, hl, hs⟩ := ih2.mp hb
          exact ⟨l, List.mem_cons_of_mem _ hl, hs⟩
        · rintro ⟨l, hl, hs⟩
          rcases List.mem_cons.mp hl with h2 | h2
          · exact absurd (h2 ▸ hs) h
          · exact ih2.mpr ⟨l, h2, hs⟩
      · intro hb
        exact congrArg Nat.succ (ih3 hb)

/-- C9: the inner coordinate sweep performs at most `linmax` full passes over
the blocks, and it stops via the early-exit test exactly when, after a
completed full pass, the sum of the per-block fixed-point residuals
`√(changed count)` is strictly below `1e-4`; when the test never fires the
sweep performs exactly `linmax` passes. -/
theorem claimC9_thm (d : BlockData) (tau : ℚ) (oracle : Vec → List Bool)
    (linmax : ℕ) (st : OuterState) :
    (innerLoop d tau oracle linmax st).passEps.length ≤ linmax ∧
    ((innerLoop d tau oracle linmax st).broke = true ↔
      ∃ l ∈ (innerLoop d tau oracle linmax st).passEps,
        (l.map (fun j : ℕ => Real.sqrt (j : ℝ))).sum < 1/10000) ∧
    ((innerLoop d tau oracle linmax st).broke = false →
      (innerLoop d tau oracle linmax st).passEps.length = linmax) := by
  obtain ⟨h1, h2, h3⟩ := innerLoop_spec d tau oracle linmax st
  refine ⟨h1, ?_, h3⟩
  rw [h2]
  constructor
  · rintro ⟨l, hl, hs⟩
    exact ⟨l, hl, (sqrtSum_lt_tol_iff l).mpr hs⟩
  · rintro ⟨l, hl, hs⟩
    exact ⟨l, hl, (sqrtSum_lt_tol_iff l).mp hs⟩

/-- On `d3W` with the oracle `o3W` the iterate oscillates, so no pass meets the
fixed-point tolerance and the sweep never breaks early. -/
lemma innerLoop_d3W_no_break :
    (innerLoop d3W (1/4) o3W 3 (initState d3W)).broke = false := by
  norm_num [innerLoop, sweepPass, blockUpdate, blockGrad, acceptStep, initState,
    d3W, o3W, aggAx, sumVecs, matTvec, matVec, vecAdd, vecSub, scale, vdiv,
    nonneg, zerosV, xq, dotB, dot, diffCount, nRows, nCols, rho0,
    List.range, List.range.loop, List.foldl, List.zipWith, List.map, List.sum]

/-- Companion witness for `claimC9_thm`: on the oscillating instance the sweep
runs for exactly `linmax = 3` full passes. -/
theorem claimC9_witness :
    (innerLoop d3W (1/4) o3W 3 (initState d3W)).passEps.length = 3 :=
  (claimC9_thm d3W (1/4) o3W 3 (initState d3W)).2.2 innerLoop_d3W_no_break

/-! ### Preservation lemmas for the outer loop -/

lemma blockUpdate_rho (d : BlockData) (tau : ℚ) (oracle : Vec → List Bool)
    (st : OuterState) (idx : ℕ) :
    (blockUpdate d tau oracle st idx).rho = st.rho := rfl

lemma sweepPass_rho (d : BlockData) (tau : ℚ) (oracle : Vec → List Bool)
    (st : OuterState) : (sweepPass d tau oracle st).rho = st.rho := by
  unfold sweepPass
  generalize List.range d.A.length = l
  induction l generalizing st with
  | nil => rfl
  | cons a t ih => rw [List.foldl_cons, ih, blockUpdate_rho]

lemma innerLoop_rho (d : BlockData) (tau : ℚ) (oracle : Vec → List Bool) :
    ∀ (fuel : ℕ) (st : OuterState),
      (innerLoop d tau oracle fuel st).st.rho = st.rho := by
  intro fuel
  induction fuel with
  | zero => intro st; rfl
  | succ fuel ih =>
    intro st
    by_cases h : (sweepPass d tau oracle st).epsFix.sum = 0
    · simp only [innerLoop, if_pos h]
      exact sweepPass_rho d tau oracle st
    · simp only [innerLoop, if_neg h]
      rw [ih (sweepPass d tau oracle st), sweepPass_rho]

lemma blockUpdate_xk_len (d : BlockData) (tau : ℚ) (oracle : Vec → List Bool)
    (st : OuterState) (idx : ℕ) :
    (blockUpdate d tau oracle st idx).xk.length = st.xk.length := by
  simp [blockUpdate]

lemma sweepPass_xk_len (d : BlockData) (tau : ℚ) (oracle : Vec → List Bool)
    (st : OuterState) : (sweepPass d tau oracle st).xk.length = st.xk.length := by
  unfold sweepPass
  generalize List.range d.A.length = l
  induction l generalizing st with
  | nil => rfl
  | cons a t ih => rw [List.foldl_cons, ih, blockUpdate_xk_len]

lemma innerLoop_xk_len (d : BlockData) (tau : ℚ) (oracle : Vec → List Bool) :
    ∀ (fuel : ℕ) (st : OuterState),
      (innerLoop d tau oracle fuel st).st.xk.length = st.xk.length := by
  intro fuel
  induction fuel with
  | zero => intro st; rfl
  | succ fuel ih =>
    intro st
    by_cases h : (sweepPass d tau oracle st).epsFix.sum = 0
    · simp only [innerLoop, if_pos h]
      exact sweepPass_xk_len d tau oracle st
    · simp only [innerLoop, if_neg h]
      rw [ih (sweepPass d tau oracle st), sweepPass_xk_len]

lemma outerLoop_xk_len (d : BlockData) (tau : ℚ) (oracle : Vec → List Bool)
    (linmax : ℕ) :
    ∀ (fuel : ℕ) (st : OuterState),
      (outerLoop d tau oracle linmax fuel st).st.xk.length = st.xk.length := by
  intro fuel
  induction fuel with
  | zero => intro st; rfl
  | succ fuel ih =>
    intro st
    by_cases h : outerCond d (innerLoop d tau oracle linmax st).st
    · simp only [outerLoop, if_pos h]
      exact innerLoop_xk_len d tau oracle linmax st
    · simp only [outerLoop, if_neg h]
      rw [ih]
      exact innerLoop_xk_len d tau oracle linmax st

/-! ### The outer continuation loop: termination structure -/

lemma outerLoop_spec (d : BlockData) (tau : ℚ) (oracle : Vec → List Bool)
    (linmax : ℕ) :
    ∀ (fuel : ℕ) (st : OuterState),
      ((outerLoop d tau oracle linmax fuel st).converged = true ↔
        ∃ e ∈ (outerLoop d tau oracle linmax fuel st).trace,
          e.pfeasSq = 0 ∧ e.epsFix.sum = 0) ∧
      ((outerLoop d tau oracle linmax fuel st).converged = false →
        (outerLoop d tau oracle linmax fuel st).trace.length = fuel) ∧
      (outerLoop d tau oracle linmax fuel st).trace.length ≤ fuel := by
  intro fuel
  induction fuel with
  | zero => intro st; simp [outerLoop]
  | succ fuel ih =>
    intro st
    by_cases h : outerCond d (innerLoop d tau oracle linmax st).st
    · simp only [outerLoop, if_pos h]
      refine ⟨?_, ?_, ?_⟩
      · constructor
        · intro _
          exact ⟨mkRecord d tau (innerLoop d tau oracle linmax st).st
              (innerLoop d tau oracle linmax st).passEps.length,
            List.mem_singleton_self _, h.1, h.2⟩
        · exact fun _ => trivial
      · intro hb; exact absurd hb (by simp)
      · simp
    · obtain ⟨ih1, ih2, ih3⟩ := ih
        { (innerLoop d tau oracle linmax st).st with
            rho := (innerLoop d tau oracle linmax st).st.rho * sigma
            lbd := lbdUpdate (aggAx d (innerLoop d tau oracle linmax st).st.vAx)
                d.b ((innerLoop d tau oracle linmax st).st.rho * sigma)
                (innerLoop d tau oracle linmax st).st.lbd }
      simp only [outerLoop, if_neg h]
      refine ⟨?_, ?_, ?_⟩
      · constructor
        · intro hb
          obtain ⟨e, he, hs⟩ := ih1.mp hb
          exact ⟨e, List.mem_cons_of_mem _ he, hs⟩
        · rintro ⟨e, he, hs⟩
          rcases List.mem_cons.mp he with h2 | h2
          · subst h2; exact absurd hs h
          · exact ih1.mpr ⟨e, h2, hs⟩
      · intro hb
        exact congrArg Nat.succ (ih2 hb)
      · exact Nat.succ_le_succ ih3

lemma outerLoop_trace_mem (d : BlockData) (tau : ℚ) (oracle : Vec → List Bool)
    (linmax : ℕ) :
    ∀ (fuel : ℕ) (st : OuterState),
      ∀ e ∈ (outerLoop d tau oracle linmax fuel st).trace,
        0 ≤ e.pfeasSq ∧ e.tau = tau := by
  intro fuel
  induction fuel with
  | zero => intro st e he; simp [outerLoop] at he
  | succ fuel ih =>
    intro st e he
    by_cases h : outerCond d (innerLoop d tau oracle linmax st).st
    · simp only [outerLoop, if_pos h] at he
      rw [List.mem_singleton] at he
      subst he
      exact ⟨sumSq_nonneg _, rfl⟩
    · simp only [outerLoop, if_neg h] at he
      rcases List.mem_cons.mp he with h2 | h2
      · subst h2
        exact ⟨sumSq_nonneg _, rfl⟩
      · exact ih _ e h2

lemma outerLoop_trace_rho_pos (d : BlockData) (tau : ℚ) (oracle : Vec → List Bool)
    (linmax : ℕ) :
    ∀ (fuel : ℕ) (st : OuterState), 0 < st.rho →
      ∀ e ∈ (outerLoop d tau oracle linmax fuel st).trace, 0 < e.rho := by
  intro fuel
  induction fuel with
  | zero => intro st _ e he; simp [outerLoop] at he
  | succ fuel ih =>
    intro st hpos e he
    by_cases h : outerCond d (innerLoop d tau oracle linmax st).st
    · simp only [outerLoop, if_pos h] at he
      rw [List.mem_singleton] at he
      subst he
      show 0 < (innerLoop d tau oracle linmax st).st.rho
      rw [innerLoop_rho]
      exact hpos
    · simp only [outerLoop, if_neg h] at he
      rcases List.mem_cons.mp he with h2 | h2
      · subst h2
        show 0 < (innerLoop d tau oracle linmax st).st.rho
        rw [innerLoop_rho]
        exact hpos
      · refine ih _ ?_ e h2
        show 0 < (innerLoop d tau oracle linmax st).st.rho * sigma
        rw [innerLoop_rho]
        exact mul_pos hpos (by norm_num [sigma])

lemma outerLoop_trace_first (d : BlockData) (tau : ℚ) (oracle : Vec → List Bool)
    (linmax : ℕ) :
    ∀ (fuel : ℕ) (st : OuterState),
      (outerLoop d tau oracle linmax fuel st).trace ≠ [] →
      ((outerLoop d tau oracle linmax fuel st).trace.getD 0 dummyRecord).rho
        = st.rho := by
  intro fuel st hne
  cases fuel with
  | zero => simp [outerLoop] at hne
  | succ fuel =>
    by_cases h : outerCond d (innerLoop d tau oracle linmax st).st
    · simp only [outerLoop, if_pos h]
      show (innerLoop d tau oracle linmax st).st.rho = st.rho
      exact innerLoop_rho d tau oracle linmax st
    · simp only [outerLoop, if_neg h]
      show (innerLoop d tau oracle linmax st).st.rho = st.rho
      exact innerLoop_rho d tau oracle linmax st

lemma outerLoop_trace_step (d : BlockData) (tau : ℚ) (oracle : Vec → List Bool)
    (linmax : ℕ) :
    ∀ (fuel : ℕ) (st : OuterState) (i : ℕ),
      i + 1 < (outerLoop d tau oracle linmax fuel st).trace.length →
      ((outerLoop d tau oracle linmax fuel st).trace.getD (i+1) dummyRecord).rho
        = ((outerLoop d tau oracle linmax fuel st).trace.getD i dummyRecord).rho
            * sigma := by
  intro fuel
  induction fuel with
  | zero => intro st i h; simp [outerLoop] at h
  | succ fuel ih =>
    intro st i h
    by_cases hc : outerCond d (innerLoop d tau oracle linmax st).st
    · exfalso
      simp only [outerLoop, if_pos hc, List.length_singleton] at h
      omega
    · simp only [outerLoop, if_neg hc] at h ⊢
      cases i with
      | zero =>
        rw [List.getD_cons_succ, List.getD_cons_zero]
        have hlen : 0 + 1 <
            (outerLoop d tau oracle linmax fuel
              { (innerLoop d tau oracle linmax st).st with
                  rho := (innerLoop d tau oracle linmax st).st.rho * sigma
                  lbd := lbdUpdate (aggAx d (innerLoop d tau oracle linmax st).st.vAx)
                      d.b ((innerLoop d tau oracle linmax st).st.rho * sigma)
                      (innerLoop d tau oracle linmax st).st.lbd }).trace.length + 1 := by
          simpa using h
        have hne : (outerLoop d tau oracle linmax fuel
            { (innerLoop d tau oracle linmax st).st with
                rho := (innerLoop d tau oracle linmax st).st.rho * sigma
                lbd := lbdUpdate (aggAx d (innerLoop d tau oracle linmax st).st.vAx)
                    d.b ((innerLoop d tau oracle linmax st).st.rho * sigma)
                    (innerLoop d tau oracle linmax st).st.lbd }).trace ≠ [] := by
          apply List.length_pos.mp
          omega
        rw [outerLoop_trace_first d tau oracle linmax fuel _ hne]
        rfl
      | succ j =>
        rw [List.getD_cons_succ, List.getD_cons_succ]
        apply ih
        simp only [List.length_cons] at h
        omega

/-- Entry `i` of a list is a member when `i` is in range. -/
lemma getD_mem_of_lt {α : Type} (l : List α) (i : ℕ) (d0 : α) (h : i < l.length) :
    l.getD i d0 ∈ l := by
  induction l generalizing i with
  | nil => simp at h
  | cons a t ih =>
    cases i with
    | zero => exact List.mem_cons_self a t
    | succ j => exact List.mem_cons_of_mem _ (ih j (by simpa using h))

/-- C2: the outer loop exits through its convergence test (`converged = true`)
exactly when at the end of some executed outer iteration the primal
feasibility residual `‖max(Σ A_idx x_idx - b, 0)‖` is exactly zero and the
summed fixed-point residual is strictly below `1e-4`; otherwise it runs for
exactly `itermax` outer iterations (and never for more). -/
theorem claimC2_thm (p : BCDParams) (d : BlockData) (oracle : Vec → List Bool) :
    ((optimizeRun p d oracle).converged = true ↔
      ∃ e ∈ (optimizeRun p d oracle).trace,
        Real.sqrt ((e.pfeasSq : ℚ) : ℝ) = 0 ∧
        (e.epsFix.map (fun j : ℕ => Real.sqrt (j : ℝ))).sum < 1/10000) ∧
    ((optimizeRun p d oracle).converged = false →
      (optimizeRun p d oracle).trace.length = p.itermax) ∧
    (optimizeRun p d oracle).trace.length ≤ p.itermax := by
  obtain ⟨h1, h2, h3⟩ :=
    outerLoop_spec d (1 / (Anorm ^ 2 * rho0)) oracle p.linmax p.itermax (initState d)
  refine ⟨?_, h2, h3⟩
  show (outerLoop d (1 / (Anorm ^ 2 * rho0)) oracle p.linmax p.itermax
      (initState d)).converged = true ↔ _
  rw [h1]
  constructor
  · rintro ⟨e, he, hs1, hs2⟩
    have h0 := (outerLoop_trace_mem d _ oracle p.linmax p.itermax (initState d)
      e he).1
    exact ⟨e, he, (sqrt_ratCast_eq_zero_iff _ h0).mpr hs1,
      (sqrtSum_lt_tol_iff _).mpr hs2⟩
  · rintro ⟨e, he, hs1, hs2⟩
    have h0 := (outerLoop_trace_mem d _ oracle p.linmax p.itermax (initState d)
      e he).1
    exact ⟨e, he, (sqrt_ratCast_eq_zero_iff _ h0).mp hs1,
      (sqrtSum_lt_tol_iff _).mp hs2⟩

/-- C5: between any two consecutive recorded outer iterations the penalty
weight is positive, is multiplied by `sigma = 2`, and hence strictly
increases; equality `rho_{k+1} = rho_k` can only happen when termination
prevented the growth step (in which case iteration `k+1` does not exist). -/
theorem claimC5_thm (p : BCDParams) (d : BlockData) (oracle : Vec → List Bool)
    (i : ℕ) (h : i + 1 < (optimizeRun p d oracle).trace.length) :
    0 < ((optimizeRun p d oracle).trace.getD i dummyRecord).rho ∧
    ((optimizeRun p d oracle).trace.getD (i+1) dummyRecord).rho
      = ((optimizeRun p d oracle).trace.getD i dummyRecord).rho * sigma ∧
    ((optimizeRun p d oracle).trace.getD i dummyRecord).rho
      < ((optimizeRun p d oracle).trace.getD (i+1) dummyRecord).rho := by
  simp only [optimizeRun] at h ⊢
  have hpos0 : (0 : ℚ) < (initState d).rho := by norm_num [initState, rho0]
  have hmem : (outerLoop d (1 / (Anorm ^ 2 * rho0)) oracle p.linmax p.itermax
        (initState d)).trace.getD i dummyRecord
      ∈ (outerLoop d (1 / (Anorm ^ 2 * rho0)) oracle p.linmax p.itermax
        (initState d)).trace :=
    getD_mem_of_lt _ i _ (by omega)
  have hpos := outerLoop_trace_rho_pos d (1 / (Anorm ^ 2 * rho0)) oracle p.linmax
    p.itermax (initState d) hpos0 _ hmem
  have hstep := outerLoop_trace_step d (1 / (Anorm ^ 2 * rho0)) oracle p.linmax
    p.itermax (initState d) i h
  refine ⟨hpos, hstep, ?_⟩
  rw [hstep]
  have hs : sigma = 2 := rfl
  rw [hs]
  linarith

/-- C6 (amended): `tau` is computed once, before the outer loop, as
`1 / (Anorm^2 * rho0)` from the seed penalty `rho0`, and it keeps that value
in every recorded outer iteration; in particular it satisfies
`tau = 1/(Anorm^2 * rho)` for the rho of the very first iteration (and only
stays in that relation as long as `rho` has not grown). -/
theorem claimC6_amended_thm (p : BCDParams) (d : BlockData)
    (oracle : Vec → List Bool) :
    (∀ e ∈ (optimizeRun p d oracle).trace, e.tau = 1 / (Anorm ^ 2 * rho0)) ∧
    ((optimizeRun p d oracle).trace ≠ [] →
      ((optimizeRun p d oracle).trace.getD 0 dummyRecord).tau
        = 1 / (Anorm ^ 2
            * ((optimizeRun p d oracle).trace.getD 0 dummyRecord).rho)) := by
  constructor
  · intro e he
    exact (outerLoop_trace_mem d (1 / (Anorm ^ 2 * rho0)) oracle p.linmax
      p.itermax (initState d) e he).2
  · intro hne
    simp only [optimizeRun] at hne ⊢
    have h0 := outerLoop_trace_first d (1 / (Anorm ^ 2 * rho0)) oracle p.linmax
      p.itermax (initState d) hne
    have hmem : (outerLoop d (1 / (Anorm ^ 2 * rho0)) oracle p.linmax p.itermax
          (initState d)).trace.getD 0 dummyRecord
        ∈ (outerLoop d (1 / (Anorm ^ 2 * rho0)) oracle p.linmax p.itermax
          (initState d)).trace :=
      getD_mem_of_lt _ 0 _ (List.length_pos.mpr hne)
    have htau := (outerLoop_trace_mem d (1 / (Anorm ^ 2 * rho0)) oracle p.linmax
      p.itermax (initState d) _ hmem).2
    rw [htau, h0]
    rfl

/-! ### Concrete runs used by the witnesses and counterexamples -/

/-- On `d2W` the linking constraint is unsatisfiable, so the run is never
primal feasible and exhausts `itermax`. -/
lemma run2_not_converged : (optimizeRun pW d2W oW).converged = false := by
  norm_num [optimizeRun, outerLoop, outerCond, pfeasVec, mkRecord, innerLoop,
    sweepPass, blockUpdate, blockGrad, acceptStep, lbdUpdate, initState, aggAx,
    sumVecs, matTvec, matVec, vecAdd, vecSub, scale, vdiv, nonneg, sumSq,
    zerosV, xq, dotB, dot, diffCount, nRows, nCols, Anorm, rho0, sigma, pW,
    d2W, oW, BCDParams.init, parse_environ, envW, List.range, List.range.loop,
    List.foldl, List.zipWith, List.map, List.sum]

/-- The `d2W` run executes exactly `itermax = 2` outer iterations. -/
lemma run2_trace_len : (optimizeRun pW d2W oW).trace.length = 2 := by
  norm_num [optimizeRun, outerLoop, outerCond, pfeasVec, mkRecord, innerLoop,
    sweepPass, blockUpdate, blockGrad, acceptStep, lbdUpdate, initState, aggAx,
    sumVecs, matTvec, matVec, vecAdd, vecSub, scale, vdiv, nonneg, sumSq,
    zerosV, xq, dotB, dot, diffCount, nRows, nCols, Anorm, rho0, sigma, pW,
    d2W, oW, BCDParams.init, parse_environ, envW, List.range, List.range.loop,
    List.foldl, List.zipWith, List.map, List.sum]

/-- The `(tau, rho)` pairs of the two recorded iterations of the `d2W` run:
`tau` stays `1/4` while `rho` doubles from `1/100` to `1/50`. -/
lemma run2_trace_tau_rho :
    (optimizeRun pW d2W oW).trace.map (fun e => (e.tau, e.rho))
      = [(1/4, 1/100), (1/4, 1/50)] := by
  norm_num [optimizeRun, outerLoop, outerCond, pfeasVec, mkRecord, innerLoop,
    sweepPass, blockUpdate, blockGrad, acceptStep, lbdUpdate, initState, aggAx,
    sumVecs, matTvec, matVec, vecAdd, vecSub, scale, vdiv, nonneg, sumSq,
    zerosV, xq, dotB, dot, diffCount, nRows, nCols, Anorm, rho0, sigma, pW,
    d2W, oW, BCDParams.init, parse_environ, envW, List.range, List.range.loop,
    List.foldl, List.zipWith, List.map, List.sum]

lemma run2_trace_ne_nil : (optimizeRun pW d2W oW).trace ≠ [] := by
  have h := run2_trace_len
  intro hnil
  rw [hnil] at h
  simp at h

/-- Companion witness for `claimC2_thm`: the `d2W` run does not converge and
its trace length equals `itermax`. -/
theorem claimC2_witness : (optimizeRun pW d2W oW).trace.length = pW.itermax :=
  (claimC2_thm pW d2W oW).2.1 run2_not_converged

/-- Companion witness for `claimC5_thm` at the first pair of consecutive
iterations of the `d2W` run. -/
theorem claimC5_witness :
    0 < ((optimizeRun pW d2W oW).trace.getD 0 dummyRecord).rho ∧
    ((optimizeRun pW d2W oW).trace.getD (0+1) dummyRecord).rho
      = ((optimizeRun pW d2W oW).trace.getD 0 dummyRecord).rho * sigma ∧
    ((optimizeRun pW d2W oW).trace.getD 0 dummyRecord).rho
      < ((optimizeRun pW d2W oW).trace.getD (0+1) dummyRecord).rho :=
  claimC5_thm pW d2W oW 0 (by rw [run2_trace_len]; omega)

/-- C6 counterexample: in the `d2W` run the second recorded iteration has
`rho = 1/50` after growth but still `tau = 1/4 ≠ 1/(Anorm^2 * (1/50))`, so
`tau` is not kept derived from the current `rho`. -/
theorem claimC6_counterexample :
    ¬ ∀ e ∈ (optimizeRun pW d2W oW).trace, e.tau = 1 / (Anorm ^ 2 * e.rho) := by
  intro hall
  have hpair : ((1:ℚ)/4, (1:ℚ)/50)
      ∈ (optimizeRun pW d2W oW).trace.map (fun e => (e.tau, e.rho)) := by
    rw [run2_trace_tau_rho]
    simp
  obtain ⟨e, he, hpe⟩ := List.mem_map.mp hpair
  have htau : e.tau = 1/4 := congrArg Prod.fst hpe
  have hrho : e.rho = 1/50 := congrArg Prod.snd hpe
  have hcontra := hall e he
  rw [htau, hrho] at hcontra
  norm_num [Anorm] at hcontra

/-- Companion witness for `claimC6_amended_thm`: the first iteration of the
`d2W` run does satisfy `tau = 1/(Anorm^2 * rho)`. -/
theorem claimC6_witness :
    ((optimizeRun pW d2W oW).trace.getD 0 dummyRecord).tau
      = 1 / (Anorm ^ 2 * ((optimizeRun pW d2W oW).trace.getD 0 dummyRecord).rho) :=
  (claimC6_amended_thm pW d2W oW).2 run2_trace_ne_nil

/-- The `d1W` run converges (its final iterate is feasible). -/
lemma run1_converged : (optimizeRun pW d1W oW).converged = true := by
  norm_num [optimizeRun, outerLoop, outerCond, pfeasVec, mkRecord, innerLoop,
    sweepPass, blockUpdate, blockGrad, acceptStep, lbdUpdate, initState, aggAx,
    sumVecs, matTvec, matVec, vecAdd, vecSub, scale, vdiv, nonneg, sumSq,
    zerosV, xq, dotB, dot, diffCount, nRows, nCols, Anorm, rho0, sigma, pW,
    d1W, oW, BCDParams.init, parse_environ, envW, List.range, List.range.loop,
    List.foldl, List.zipWith, List.map, List.sum]

/-- The converged `d1W` run returns the plain iterate `[[false]]`. -/
lemma run1_out : optimize pW d1W oW = [[false]] := by
  norm_num [optimize, optimizeRun, outerLoop, outerCond, pfeasVec, mkRecord,
    innerLoop, sweepPass, blockUpdate, blockGrad, acceptStep, lbdUpdate,
    initState, aggAx, sumVecs, matTvec, matVec, vecAdd, vecSub, scale, vdiv,
    nonneg, sumSq, zerosV, xq, dotB, dot, diffCount, nRows, nCols, Anorm, rho0,
    sigma, pW, d1W, oW, BCDParams.init, parse_environ, envW, List.range,
    List.range.loop, List.foldl, List.zipWith, List.map, List.sum]

/-- The iteration-limited `d2W` run returns the same plain iterate `[[false]]`. -/
lemma run2_out : optimize pW d2W oW = [[false]] := by
  norm_num [optimize, optimizeRun, outerLoop, outerCond, pfeasVec, mkRecord,
    innerLoop, sweepPass, blockUpdate, blockGrad, acceptStep, lbdUpdate,
    initState, aggAx, sumVecs, matTvec, matVec, vecAdd, vecSub, scale, vdiv,
    nonneg, sumSq, zerosV, xq, dotB, dot, diffCount, nRows, nCols, Anorm, rho0,
    sigma, pW, d2W, oW, BCDParams.init, parse_environ, envW, List.range,
    List.range.loop, List.foldl, List.zipWith, List.map, List.sum]

/-- C1 counterexample: a CONVERGED run (`d1W`) and an ITERATION_LIMIT run
(`d2W`) return identical values, so the value returned by `optimize` carries
no terminal state tag (and, being a bare list of 0-1 vectors, no bound/gap
history either). -/
theorem claimC1_counterexample :
    optimize pW d1W oW = optimize pW d2W oW ∧
    (optimizeRun pW d1W oW).converged = true ∧
    (optimizeRun pW d2W oW).converged = false := by
  refine ⟨?_, run1_converged, run2_not_converged⟩
  rw [run1_out, run2_out]

/-- C1 (amended): `optimize` returns exactly the final iterate of the run —
one 0-1 vector per block (the returned list has one entry per linking block) —
and nothing else: neither the bound/gap history nor the terminal state is part
of the return value. -/
theorem claimC1_amended_thm (p : BCDParams) (d : BlockData)
    (oracle : Vec → List Bool) :
    optimize p d oracle = (optimizeRun p d oracle).st.xk ∧
    (optimize p d oracle).length = d.A.length := by
  refine ⟨rfl, ?_⟩
  show (outerLoop d (1 / (Anorm ^ 2 * rho0)) oracle p.linmax p.itermax
      (initState d)).st.xk.length = d.A.length
  rw [outerLoop_xk_len]
  simp [initState]
